import Mathlib

/-!
Verification of the mode-solver core of the `modes` package (modesolverpy).

The repository snapshot ships the tutorial notebooks, Dockerfile and Makefile;
the `modes` Python package itself (structure builder, semi- and fully-vectorial
solvers, post-processing, sweep engine, design formulas) is not part of the
snapshot.  The definitions below therefore model those missing components from
the specification's own words, and the theorems settle the specification's
claims against these models.  Rationals stand for the real-valued data wherever
the properties are order-theoretic, so that every predicate stays decidable;
real numbers are used where square roots and sines are essential.
-/

namespace Modes

/-- Modelled from the spec: polarization classification of a mode (TE/TM);
the solver implementation that assigns it is missing from the snapshot. -/
inductive Pol where
  | TE : Pol
  | TM : Pol

deriving instance DecidableEq for Pol

/-- Modelled from the spec: a `Mode` carries a complex effective index
(represented by its real and imaginary parts), a polarization label and a
field-component array; the solver code producing it is missing from the
snapshot. -/
structure Mode where
  neffRe : ℚ
  neffIm : ℚ
  pol : Pol
  field : List ℚ

deriving instance DecidableEq for Mode

/-- Modelled from the spec: error taxonomy of the solve pipeline
(ConfigurationError, SolverConvergenceError); the raising code is missing from
the snapshot. -/
inductive ModesError where
  | ConfigurationError : ModesError
  | SolverConvergenceError : ModesError

deriving instance DecidableEq for ModesError

/-- Modelled from the spec: a mode is physical when real(neff) lies inside the
closed interval [min material index, max material index]. -/
def isPhysical (nmin nmax : ℚ) (m : Mode) : Bool :=
  decide (nmin ≤ m.neffRe ∧ m.neffRe ≤ nmax)

/-- Non-increasing order on real(neff): `neffGe a b` holds when `a`'s real
effective index is at least `b`'s. -/
def neffGe (a b : Mode) : Prop := b.neffRe ≤ a.neffRe

instance : DecidableRel neffGe :=
  fun a b => inferInstanceAs (Decidable (b.neffRe ≤ a.neffRe))

instance : IsTotal Mode neffGe := ⟨fun a b => le_total b.neffRe a.neffRe⟩

instance : IsTrans Mode neffGe := ⟨fun _ _ _ h1 h2 => le_trans h2 h1⟩

/-- Modelled from the spec: common post-processing of raw eigenpairs shared by
both solvers — discard non-physical modes, sort descending by real(neff), keep
at most the requested number of modes. -/
def postProcess (nmin nmax : ℚ) (nModes : ℕ) (raw : List Mode) : List Mode :=
  (((raw.filter (isPhysical nmin nmax)).insertionSort neffGe)).take nModes

/-- Modelled from the spec: the diagnostic counter of silently discarded
non-physical eigenvalues. -/
def discardedCount (nmin nmax : ℚ) (raw : List Mode) : ℕ :=
  (raw.filter (fun m => ! isPhysical nmin nmax m)).length

/-- Modelled from the spec: the semi-vectorial solve — the missing
eigensolver's raw output is the `raw` argument; the solver then filters,
sorts and truncates.  Returns a plain ModeSet: non-physical discard is not an
error path. -/
def solveSemi (nmin nmax : ℚ) (nModes : ℕ) (raw : List Mode) : List Mode :=
  postProcess nmin nmax nModes raw

/-- Modelled from the spec: the fully-vectorial solve — the missing Arnoldi
iteration inspects at most `budget` candidate eigenpairs; if fewer than
`nModes` physical ones are found the solve fails with SolverConvergenceError
and delivers no partial ModeSet. -/
def solveFull (nmin nmax : ℚ) (nModes budget : ℕ) (candidates : List Mode) :
    Except ModesError (List Mode) :=
  let inspected := candidates.take budget
  if ((inspected.filter (isPhysical nmin nmax)).length < nModes) then
    Except.error ModesError.SolverConvergenceError
  else
    Except.ok (postProcess nmin nmax nModes inspected)

/-- Modelled from the spec: the immutable waveguide-geometry configuration with
layer thicknesses, core width, sidewall angle, discretization steps and
wavelength; the `waveguide`/`RidgeWaveguide` constructor code is missing from
the snapshot. -/
structure RidgeWaveguide where
  wavelength : ℚ
  x_step : ℚ
  y_step : ℚ
  thickness : ℚ
  width : ℚ
  sub_thickness : ℚ
  sub_width : ℚ
  clad_thickness : ℚ
  slab_thickness : ℚ
  angle : ℚ

deriving instance DecidableEq for RidgeWaveguide

/-- Modelled from the spec: geometry validity — all mandatory
thicknesses/widths/steps strictly positive, the optional slab non-negative
(a zero-thickness slab layer is omitted, not rejected), angle in [0°, 90°). -/
def validGeometry (g : RidgeWaveguide) : Bool :=
  decide (0 < g.thickness ∧ 0 < g.width ∧ 0 < g.x_step ∧ 0 < g.y_step ∧
    0 < g.sub_thickness ∧ 0 < g.sub_width ∧ 0 < g.clad_thickness ∧
    0 ≤ g.slab_thickness ∧ 0 ≤ g.angle ∧ g.angle < 90)

/-- Modelled from the spec: the layer stack actually rasterized —
zero-thickness layers (the optional slab) are omitted. -/
def layerThicknesses (g : RidgeWaveguide) : List ℚ :=
  ([g.sub_thickness, g.thickness, g.slab_thickness, g.clad_thickness]).filter
    (fun t => decide (0 < t))

/-- Modelled from the spec: geometry construction validates once, before any
solve, and fails with ConfigurationError on invalid parameters. -/
def waveguide (g : RidgeWaveguide) : Except ModesError RidgeWaveguide :=
  if validGeometry g then Except.ok g else Except.error ModesError.ConfigurationError

/-- Modelled from the spec: the solve pipeline — construct/validate the
geometry first, then hand it to the solver.  The solver is a parameter, so a
validation failure provably never reaches it. -/
def solveGeometry (solver : RidgeWaveguide → List Mode) (g : RidgeWaveguide) :
    Except ModesError (List Mode) :=
  (waveguide g).map solver

/-- Modelled from the spec: the closed-form grating equation of
`design.grating_coupler_period`, with the incidence angle converted from
degrees to radians. -/
noncomputable def grating_coupler_period (wavelength n_eff n_clad : ℝ)
    (incidence_angle_deg : ℝ) (diffration_order : ℝ) : ℝ :=
  diffration_order * wavelength /
    (n_eff - n_clad * Real.sin (incidence_angle_deg * Real.pi / 180))

/-- Modelled from the spec: a mode's field profile on the cross-section grid —
the sampled field amplitudes plus the (uniform) grid-cell area. -/
structure FieldProfile where
  samples : List ℝ
  cellArea : ℝ

/-- Modelled from the spec: the power (field-energy) integral of a profile
over the cross-section, discretized as a cell-area-weighted sum of squared
amplitudes. -/
noncomputable def power (m : FieldProfile) : ℝ :=
  ((m.samples.map (fun v => v ^ 2)).sum) * m.cellArea

/-- Modelled from the spec: `normalize` rescales the field amplitude by the
square root of the power integral so that the normalized power equals 1. -/
noncomputable def normalize (m : FieldProfile) : FieldProfile :=
  { m with samples := m.samples.map (fun v => v / Real.sqrt (power m)) }

/-- Modelled from the spec: discretized overlap between two co-registered
field components on the grid. -/
def overlapDot {n : ℕ} (f g : Fin n → ℚ) : ℚ := ∑ i, f i * g i

/-- Modelled from the spec: `coupling_efficiency` — the normalized overlap
integral between the matching field component of the computed mode and the
ideal Gaussian fiber mode sampled on the same grid (the uniform cell area
cancels in the normalization). -/
def coupling_efficiency {n : ℕ} (modeField fibreField : Fin n → ℚ) : ℚ :=
  overlapDot modeField fibreField ^ 2 /
    (overlapDot modeField modeField * overlapDot fibreField fibreField)

/-- Modelled from the spec: field-overlap magnitude used as the mode-tracking
tie-break. -/
def fieldOverlap (f g : List ℚ) : ℚ := |(List.zipWith (fun a b => a * b) f g).sum|

/-- Tracking criterion (a): 0 when the candidate's polarization label matches
the previous slot's, 1 otherwise. -/
def labelMismatch (p c : Mode) : ℕ := if c.pol = p.pol then 0 else 1

/-- Tracking criterion (b): the detuning of the candidate's real effective
index from the previous slot's. -/
def detune (p c : Mode) : ℚ := |c.neffRe - p.neffRe|

/-- Modelled from the spec: candidate `a` is strictly preferred to `b` for the
previous-slot mode `p` — lexicographically by (a) polarization-label match,
(b) smaller detuning, (c) larger field-overlap magnitude. -/
def betterFor (p : Mode) (a b : Mode) : Bool :=
  decide (labelMismatch p a < labelMismatch p b ∨
    (labelMismatch p a = labelMismatch p b ∧ detune p a < detune p b) ∨
    (labelMismatch p a = labelMismatch p b ∧ detune p a = detune p b ∧
      fieldOverlap p.field b.field < fieldOverlap p.field a.field))

/-- Modelled from the spec: the best candidate for a previous slot, preferring
the earliest candidate on full ties. -/
def pickBest (p : Mode) : List Mode → Option Mode
  | [] => none
  | c :: cs =>
    match pickBest p cs with
    | none => some c
    | some b => if betterFor p b c then some b else some c

/-- Modelled from the spec: greedy slot-by-slot assignment of a step's modes to
the previous step's slots; each assigned mode is removed from the candidate
pool. -/
def assignModes (prev cands : List Mode) : List Mode :=
  match prev with
  | [] => []
  | p :: ps =>
    match pickBest p cands with
    | none => []
    | some b => b :: assignModes ps (cands.erase b)

/-- Modelled from the spec: the sweep loop — one solve per parameter value,
entries index-aligned with the parameter list; the first step keeps the native
solver order, later steps are re-ordered by tracking against the previous
step's slots. -/
def sweepTrack (solver : ℚ → List Mode) : List ℚ → List Mode → List (ℚ × List Mode)
  | [], _ => []
  | w :: ws, prev =>
    let raw := solver w
    let tracked := if prev.isEmpty then raw else assignModes prev raw
    (w, tracked) :: sweepTrack solver ws tracked

/-- Modelled from the spec: `sweep_waveguide` — sweep the solver over the
parameter values, starting from an empty baseline (native order on the first
step). -/
def sweep_waveguide (solver : ℚ → List Mode) (ws : List ℚ) : List (ℚ × List Mode) :=
  sweepTrack solver ws []

/-! ### Helper lemmas on the shared post-processing -/

theorem postProcess_length_le (nmin nmax : ℚ) (nModes : ℕ) (raw : List Mode) :
    (postProcess nmin nmax nModes raw).length ≤ nModes := by
  simp only [postProcess, List.length_take]
  exact min_le_left _ _

theorem postProcess_sorted (nmin nmax : ℚ) (nModes : ℕ) (raw : List Mode) :
    List.Sorted neffGe (postProcess nmin nmax nModes raw) :=
  List.Pairwise.sublist (List.take_sublist _ _)
    (List.sorted_insertionSort neffGe _)

theorem mem_postProcess_physical (nmin nmax : ℚ) (nModes : ℕ) (raw : List Mode)
    (m : Mode) (hm : m ∈ postProcess nmin nmax nModes raw) :
    nmin ≤ m.neffRe ∧ m.neffRe ≤ nmax := by
  have h1 : m ∈ (raw.filter (isPhysical nmin nmax)).insertionSort neffGe :=
    List.take_subset _ _ hm
  have h2 : m ∈ raw.filter (isPhysical nmin nmax) :=
    (List.mem_insertionSort neffGe).mp h1
  have h3 : isPhysical nmin nmax m = true := (List.mem_filter.mp h2).2
  exact of_decide_eq_true h3

theorem length_filter_add_length_filter_not {α : Type} (p : α → Bool) (l : List α) :
    (l.filter p).length + (l.filter (fun a => ! p a)).length = l.length := by
  induction l with
  | nil => simp
  | cons a l ih =>
    by_cases h : p a = true <;> simp [List.filter_cons, h, ← ih] <;> omega

/-! ### Claim theorems -/

/-- C2: every solve — semi-vectorial or fully-vectorial — returns a ModeSet of
length at most the requested `nModes`, with real(neff) non-increasing from
index 0 upward (`List.Sorted neffGe`), so index 0 is the fundamental mode. -/
theorem modeset_length_le_and_neff_descending
    (nmin nmax : ℚ) (nModes budget : ℕ) (raw cands : List Mode)
    (ms : List Mode) (hok : solveFull nmin nmax nModes budget cands = Except.ok ms) :
    (solveSemi nmin nmax nModes raw).length ≤ nModes ∧
    List.Sorted neffGe (solveSemi nmin nmax nModes raw) ∧
    ms.length ≤ nModes ∧ List.Sorted neffGe ms := by
  refine ⟨postProcess_length_le .., postProcess_sorted .., ?_⟩
  have hms : ms = postProcess nmin nmax nModes (cands.take budget) := by
    by_cases hc : (((cands.take budget).filter (isPhysical nmin nmax)).length < nModes)
    · simp [solveFull, hc] at hok
    · simp [solveFull, hc] at hok
      exact hok.symm
  rw [hms]
  exact ⟨postProcess_length_le .., postProcess_sorted ..⟩

/-- C2 witness: a concrete solve of one physical candidate with both solvers. -/
theorem modeset_length_le_and_neff_descending_witness :
    (solveSemi 1 3 1 [Mode.mk 2 0 Pol.TE []]).length ≤ 1 ∧
    List.Sorted neffGe (solveSemi 1 3 1 [Mode.mk 2 0 Pol.TE []]) ∧
    ([Mode.mk 2 0 Pol.TE []] : List Mode).length ≤ 1 ∧
    List.Sorted neffGe [Mode.mk 2 0 Pol.TE []] :=
  modeset_length_le_and_neff_descending 1 3 1 1 [Mode.mk 2 0 Pol.TE []]
    [Mode.mk 2 0 Pol.TE []] [Mode.mk 2 0 Pol.TE []] (by rfl)

/-- C7: when the eigensolver's iteration budget is exhausted before `nModes`
physical eigenpairs are found, the fully-vectorial solve fails with
SolverConvergenceError, and no ModeSet (partial or otherwise) is delivered. -/
theorem convergence_failure_returns_no_modeset
    (nmin nmax : ℚ) (nModes budget : ℕ) (cands : List Mode)
    (h : (((cands.take budget).filter (isPhysical nmin nmax)).length < nModes)) :
    solveFull nmin nmax nModes budget cands =
      Except.error ModesError.SolverConvergenceError ∧
    ∀ ms : List Mode, solveFull nmin nmax nModes budget cands ≠ Except.ok ms := by
  have herr : solveFull nmin nmax nModes budget cands =
      Except.error ModesError.SolverConvergenceError := by
    simp [solveFull, h]
  exact ⟨herr, fun ms hms => by rw [herr] at hms; exact Except.noConfusion hms⟩

/-- C7 witness: an empty candidate stream with one requested mode. -/
theorem convergence_failure_returns_no_modeset_witness :
    solveFull 1 3 1 5 [] = Except.error ModesError.SolverConvergenceError ∧
    ∀ ms : List Mode, solveFull 1 3 1 5 [] ≠ Except.ok ms :=
  convergence_failure_returns_no_modeset 1 3 1 5 [] (by decide)

/-- C8: every mode in a ModeSet returned by either solver has real(neff)
inside [min material index, max material index]; out-of-range eigenvalues are
silently filtered — the semi-vectorial solve's return type is a plain ModeSet,
never an error — and the diagnostic counter accounts exactly for the
discarded ones. -/
theorem returned_modes_within_material_bounds
    (nmin nmax : ℚ) (nModes budget : ℕ) (raw cands : List Mode) :
    (∀ m ∈ solveSemi nmin nmax nModes raw, nmin ≤ m.neffRe ∧ m.neffRe ≤ nmax) ∧
    (∀ ms : List Mode, solveFull nmin nmax nModes budget cands = Except.ok ms →
      ∀ m ∈ ms, nmin ≤ m.neffRe ∧ m.neffRe ≤ nmax) ∧
    (raw.filter (isPhysical nmin nmax)).length + discardedCount nmin nmax raw =
      raw.length := by
  refine ⟨fun m hm => mem_postProcess_physical nmin nmax nModes raw m hm, ?_,
    length_filter_add_length_filter_not _ _⟩
  intro ms hok m hm
  have hms : ms = postProcess nmin nmax nModes (cands.take budget) := by
    by_cases hc : (((cands.take budget).filter (isPhysical nmin nmax)).length < nModes)
    · simp [solveFull, hc] at hok
    · simp [solveFull, hc] at hok
      exact hok.symm
  rw [hms] at hm
  exact mem_postProcess_physical nmin nmax nModes _ m hm

/-- C8 witness: the in-range mode of a concrete solve satisfies the material
bound. -/
theorem returned_modes_within_material_bounds_witness :
    (1 : ℚ) ≤ (Mode.mk 2 0 Pol.TE []).neffRe ∧ (Mode.mk 2 0 Pol.TE []).neffRe ≤ 3 :=
  (returned_modes_within_material_bounds 1 3 1 1 [Mode.mk 2 0 Pol.TE []] []).1
    (Mode.mk 2 0 Pol.TE [])
    (show Mode.mk 2 0 Pol.TE [] ∈ [Mode.mk 2 0 Pol.TE []] from
      List.mem_singleton_self _)

/-- C4: a geometry with a non-positive thickness, width, or step value fails
with ConfigurationError; the failure happens during validation, before any
solve is attempted — the outcome is the same error for every solver. -/
theorem nonpositive_geometry_config_error (g : RidgeWaveguide)
    (h : g.thickness ≤ 0 ∨ g.width ≤ 0 ∨ g.x_step ≤ 0 ∨ g.y_step ≤ 0) :
    ∀ solver : RidgeWaveguide → List Mode,
      solveGeometry solver g = Except.error ModesError.ConfigurationError := by
  intro solver
  have hv : validGeometry g = false := by
    simp only [validGeometry, decide_eq_false_iff_not]
    rintro ⟨h1, h2, h3, h4, -⟩
    rcases h with h | h | h | h
    · exact absurd h1 (not_lt.mpr h)
    · exact absurd h2 (not_lt.mpr h)
    · exact absurd h3 (not_lt.mpr h)
    · exact absurd h4 (not_lt.mpr h)
  simp [solveGeometry, waveguide, hv, Except.map]

/-- C4 witness: a zero-thickness core geometry is rejected before the (here
trivial) solver runs. -/
theorem nonpositive_geometry_config_error_witness :
    solveGeometry (fun _ => [])
      (RidgeWaveguide.mk (155/100) (2/100) (2/100) 0 (1/2) 1 2 1 0 0) =
      Except.error ModesError.ConfigurationError :=
  nonpositive_geometry_config_error
    (RidgeWaveguide.mk (155/100) (2/100) (2/100) 0 (1/2) 1 2 1 0 0)
    (Or.inl (by norm_num)) (fun _ => [])

/-- C5: for inputs whose denominator does not vanish,
`grating_coupler_period` returns exactly
order·wavelength / (neff − n_clad·sin(incidence angle)), the incidence angle
being the degree argument converted to radians. -/
theorem grating_coupler_period_closed_form
    (wavelength n_eff n_clad incidence_angle_deg diffration_order : ℝ)
    (hden : n_eff ≠ n_clad * Real.sin (incidence_angle_deg * Real.pi / 180)) :
    grating_coupler_period wavelength n_eff n_clad incidence_angle_deg
        diffration_order =
      diffration_order * wavelength /
        (n_eff - n_clad * Real.sin (incidence_angle_deg * Real.pi / 180)) :=
  rfl

/-- C5 witness: a vertically-incident (zero-cladding-projection) instance. -/
theorem grating_coupler_period_closed_form_witness :
    grating_coupler_period (155/100) 2 0 10 1 =
      1 * (155/100) / (2 - 0 * Real.sin (10 * Real.pi / 180)) :=
  grating_coupler_period_closed_form (155/100) 2 0 10 1 (by norm_num)

theorem power_normalize (m : FieldProfile) (h : 0 < power m) :
    power (normalize m) = 1 := by
  set s := Real.sqrt (power m) with hsdef
  have hP : power m = ((m.samples.map (fun v => v ^ 2)).sum) * m.cellArea := rfl
  have e1 : power (normalize m) =
      ((m.samples.map (fun v => v / s)).map (fun v => v ^ 2)).sum * m.cellArea := rfl
  have hs : (m.samples.map (fun v => v / s)).map (fun v => v ^ 2) =
      m.samples.map (fun v => v ^ 2 * (s ^ 2)⁻¹) := by
    rw [List.map_map]
    refine List.map_congr_left (fun v _ => ?_)
    simp only [Function.comp]
    rw [div_pow, div_eq_mul_inv]
  have hsum : ((m.samples.map (fun v => v ^ 2 * (s ^ 2)⁻¹)).sum) =
      ((m.samples.map (fun v => v ^ 2)).sum) * (s ^ 2)⁻¹ :=
    List.sum_map_mul_right _ _ _
  have hsq : s ^ 2 = power m := Real.sq_sqrt h.le
  rw [e1, hs, hsum, hsq]
  have hcomm : ((m.samples.map (fun v => v ^ 2)).sum) * (power m)⁻¹ * m.cellArea =
      (((m.samples.map (fun v => v ^ 2)).sum) * m.cellArea) * (power m)⁻¹ := by ring
  rw [hcomm, ← hP]
  exact mul_inv_cancel₀ h.ne'

/-- C9: `normalize` makes the power integral equal to 1 — in particular within
the 1e-6 relative tolerance — and it is idempotent: normalizing an
already-normalized profile leaves it unchanged. -/
theorem normalize_power_one_and_idempotent (m : FieldProfile) (h : 0 < power m) :
    power (normalize m) = 1 ∧
    |power (normalize m) - 1| ≤ 1 / 1000000 ∧
    normalize (normalize m) = normalize m := by
  have h1 : power (normalize m) = 1 := power_normalize m h
  refine ⟨h1, by rw [h1]; norm_num, ?_⟩
  have h2 : Real.sqrt (power (normalize m)) = 1 := by rw [h1]; exact Real.sqrt_one
  show FieldProfile.mk
      ((normalize m).samples.map (fun v => v / Real.sqrt (power (normalize m))))
      (normalize m).cellArea = normalize m
  have h3 : ((normalize m).samples.map (fun v => v / (1 : ℝ))) =
      (normalize m).samples := by simp
  rw [h2, h3]

/-- C9 witness: a one-sample profile of amplitude 2 on a unit cell. -/
theorem normalize_power_one_and_idempotent_witness :
    power (normalize (FieldProfile.mk [2] 1)) = 1 ∧
    |power (normalize (FieldProfile.mk [2] 1)) - 1| ≤ 1 / 1000000 ∧
    normalize (normalize (FieldProfile.mk [2] 1)) =
      normalize (FieldProfile.mk [2] 1) :=
  normalize_power_one_and_idempotent (FieldProfile.mk [2] 1)
    (by norm_num [power])

theorem overlapDot_self_nonneg {n : ℕ} (f : Fin n → ℚ) : 0 ≤ overlapDot f f :=
  Finset.sum_nonneg (fun i _ => mul_self_nonneg (f i))

theorem overlapDot_sq_eq {n : ℕ} (f : Fin n → ℚ) :
    overlapDot f f = ∑ i, f i ^ 2 := by
  refine Finset.sum_congr rfl (fun i _ => ?_)
  rw [sq]

theorem coupling_efficiency_nonneg {n : ℕ} (E G : Fin n → ℚ) :
    0 ≤ coupling_efficiency E G :=
  div_nonneg (sq_nonneg _)
    (mul_nonneg (overlapDot_self_nonneg E) (overlapDot_self_nonneg G))

theorem coupling_efficiency_le_one {n : ℕ} (E G : Fin n → ℚ) :
    coupling_efficiency E G ≤ 1 := by
  have hden : 0 ≤ overlapDot E E * overlapDot G G :=
    mul_nonneg (overlapDot_self_nonneg E) (overlapDot_self_nonneg G)
  rcases hden.eq_or_lt with hz | hpos
  · rw [coupling_efficiency, ← hz, div_zero]
    norm_num
  · rw [coupling_efficiency, div_le_one hpos, overlapDot_sq_eq E, overlapDot_sq_eq G]
    exact Finset.sum_mul_sq_le_sq_mul_sq Finset.univ E G

/-- C3: the coupling efficiency between any computed mode field and any
Gaussian fiber field lies in [0, 1]; a mode field that is exactly a (nonzero)
multiple of the sampled Gaussian of the queried MFD yields efficiency exactly
1, hence within the 1e-3 tolerance of 1. -/
theorem coupling_efficiency_bounds_and_gaussian_match
    {n : ℕ} (E G : Fin n → ℚ) (c : ℚ) (hc : c ≠ 0) (hG : overlapDot G G ≠ 0) :
    (0 ≤ coupling_efficiency E G ∧ coupling_efficiency E G ≤ 1) ∧
    coupling_efficiency (fun i => c * G i) G = 1 ∧
    |coupling_efficiency (fun i => c * G i) G - 1| ≤ 1 / 1000 := by
  have h1 : overlapDot (fun i => c * G i) G = c * overlapDot G G := by
    rw [overlapDot, overlapDot, Finset.mul_sum]
    exact Finset.sum_congr rfl (fun i _ => by ring)
  have h2 : overlapDot (fun i => c * G i) (fun i => c * G i) =
      c ^ 2 * overlapDot G G := by
    rw [overlapDot, overlapDot, Finset.mul_sum]
    exact Finset.sum_congr rfl (fun i _ => by ring)
  have hmatch : coupling_efficiency (fun i => c * G i) G = 1 := by
    rw [coupling_efficiency, h1, h2]
    have hne : c ^ 2 * overlapDot G G * overlapDot G G ≠ 0 :=
      mul_ne_zero (mul_ne_zero (pow_ne_zero 2 hc) hG) hG
    rw [mul_pow, div_eq_one_iff_eq hne]
    ring
  exact ⟨⟨coupling_efficiency_nonneg E G, coupling_efficiency_le_one E G⟩, hmatch,
    by rw [hmatch]; norm_num⟩

/-- C3 witness: a two-sample grid, an arbitrary mode field, a Gaussian sample
vector, and a rescaled copy of the Gaussian as the matching mode. -/
theorem coupling_efficiency_bounds_and_gaussian_match_witness :
    (0 ≤ coupling_efficiency (fun _ : Fin 2 => 1) (fun i => if i = 0 then 2 else 1) ∧
      coupling_efficiency (fun _ : Fin 2 => 1) (fun i => if i = 0 then 2 else 1) ≤ 1) ∧
    coupling_efficiency (fun i : Fin 2 => 3 * (if i = 0 then 2 else 1))
      (fun i => if i = 0 then 2 else 1) = 1 ∧
    |coupling_efficiency (fun i : Fin 2 => 3 * (if i = 0 then 2 else 1))
      (fun i => if i = 0 then 2 else 1) - 1| ≤ 1 / 1000 :=
  coupling_efficiency_bounds_and_gaussian_match
    (fun _ : Fin 2 => 1) (fun i => if i = 0 then 2 else 1) 3
    (by norm_num) (by norm_num [overlapDot, Fin.sum_univ_two])

theorem sweepTrack_cons (solver : ℚ → List Mode) (w : ℚ) (ws : List ℚ)
    (prev : List Mode) :
    sweepTrack solver (w :: ws) prev =
      (w, if prev.isEmpty then solver w else assignModes prev (solver w)) ::
        sweepTrack solver ws
          (if prev.isEmpty then solver w else assignModes prev (solver w)) := rfl

theorem labelMismatch_eq_zero_iff (p c : Mode) :
    labelMismatch p c = 0 ↔ c.pol = p.pol := by
  unfold labelMismatch
  by_cases h : c.pol = p.pol <;> simp [h]

theorem pickBest_matching_pol (p : Mode) :
    ∀ cs : List Mode, (∃ c ∈ cs, c.pol = p.pol) →
      ∃ b, pickBest p cs = some b ∧ b.pol = p.pol := by
  intro cs
  induction cs with
  | nil =>
    rintro ⟨c, hc, -⟩
    exact absurd hc (List.not_mem_nil c)
  | cons c cs ih =>
    intro hex
    by_cases hcp : c.pol = p.pol
    · cases h : pickBest p cs with
      | none => exact ⟨c, by simp [pickBest, h], hcp⟩
      | some b =>
        by_cases hb : betterFor p b c = true
        · refine ⟨b, by simp [pickBest, h, hb], ?_⟩
          have hdis := of_decide_eq_true hb
          have hc0 : labelMismatch p c = 0 := (labelMismatch_eq_zero_iff p c).mpr hcp
          rcases hdis with hlt | ⟨heq, -⟩ | ⟨heq, -, -⟩
          · omega
          · exact (labelMismatch_eq_zero_iff p b).mp (by omega)
          · exact (labelMismatch_eq_zero_iff p b).mp (by omega)
        · exact ⟨c, by simp [pickBest, h, hb], hcp⟩
    · obtain ⟨c', hc', hpol'⟩ := hex
      have hmem : c' ∈ cs := by
        rcases List.mem_cons.mp hc' with rfl | hmem
        · exact absurd hpol' hcp
        · exact hmem
      obtain ⟨b, hb, hbpol⟩ := ih ⟨c', hmem, hpol'⟩
      have hbetter : betterFor p b c = true := by
        apply decide_eq_true
        left
        have hb0 : labelMismatch p b = 0 := (labelMismatch_eq_zero_iff p b).mpr hbpol
        have hc1 : labelMismatch p c = 1 := by simp [labelMismatch, hcp]
        omega
      exact ⟨b, by simp [pickBest, hb, hbetter], hbpol⟩

theorem assignModes_cons_pol (p : Mode) (ps cands : List Mode)
    (hex : ∃ c ∈ cands, c.pol = p.pol) :
    ∃ b rest, assignModes (p :: ps) cands = b :: rest ∧ b.pol = p.pol := by
  obtain ⟨b, hb, hbpol⟩ := pickBest_matching_pol p cands hex
  exact ⟨b, assignModes ps (cands.erase b), by simp [assignModes, hb], hbpol⟩

/-- C6: sweeping the widths 0.3, 0.5, 0.7 yields a SweepResult of length 3
whose entries are aligned with the widths in their given order; the first step
keeps the native solver order, and — label matching being the tracking's first
criterion — as long as every step offers a TE-labeled mode (no crossing drops
it), tracked slot 0 stays TE-labeled in all three entries. -/
theorem sweep_three_widths_te_slot_zero (solver : ℚ → List Mode)
    (h1 : ((solver (3/10)).head?).map Mode.pol = some Pol.TE)
    (h2 : ∃ c ∈ solver (1/2), c.pol = Pol.TE)
    (h3 : ∃ c ∈ solver (7/10), c.pol = Pol.TE) :
    (sweep_waveguide solver [3/10, 1/2, 7/10]).length = 3 ∧
    (sweep_waveguide solver [3/10, 1/2, 7/10]).map Prod.fst = [3/10, 1/2, 7/10] ∧
    ∀ e ∈ sweep_waveguide solver [3/10, 1/2, 7/10],
      ((e.2).head?).map Mode.pol = some Pol.TE := by
  cases hs1 : solver (3/10) with
  | nil => rw [hs1] at h1; simp at h1
  | cons m rest =>
    rw [hs1] at h1
    simp only [List.head?_cons, Option.map_some'] at h1
    have h1m : m.pol = Pol.TE := by
      exact Option.some.inj h1
    obtain ⟨b2, rest2, ht2, hb2⟩ := assignModes_cons_pol m rest (solver (1/2))
      (by obtain ⟨c, hc, hcp⟩ := h2; exact ⟨c, hc, by rw [hcp, h1m]⟩)
    obtain ⟨b3, rest3, ht3, hb3⟩ := assignModes_cons_pol b2 rest2 (solver (7/10))
      (by obtain ⟨c, hc, hcp⟩ := h3; exact ⟨c, hc, by rw [hcp, hb2, h1m]⟩)
    have hsweep : sweep_waveguide solver [3/10, 1/2, 7/10] =
        [(3/10, m :: rest), (1/2, b2 :: rest2), (7/10, b3 :: rest3)] := by
      unfold sweep_waveguide
      rw [sweepTrack_cons, sweepTrack_cons, sweepTrack_cons]
      simp only [List.isEmpty_nil, List.isEmpty_cons, eq_self_iff_true, if_true,
        Bool.false_eq_true, if_false, hs1, ht2, ht3]
      rfl
    rw [hsweep]
    refine ⟨rfl, rfl, ?_⟩
    intro e he
    simp only [List.mem_cons, List.not_mem_nil, or_false] at he
    rcases he with rfl | rfl | rfl
    · simp [h1m]
    · simp [hb2, h1m]
    · simp [hb3, hb2, h1m]

/-- C6 witness: a solver delivering one TE mode at every width. -/
theorem sweep_three_widths_te_slot_zero_witness :
    (sweep_waveguide (fun _ : ℚ => [Mode.mk 2 0 Pol.TE [1]])
      [3/10, 1/2, 7/10]).length = 3 ∧
    (sweep_waveguide (fun _ : ℚ => [Mode.mk 2 0 Pol.TE [1]])
      [3/10, 1/2, 7/10]).map Prod.fst = [3/10, 1/2, 7/10] ∧
    ∀ e ∈ sweep_waveguide (fun _ : ℚ => [Mode.mk 2 0 Pol.TE [1]]) [3/10, 1/2, 7/10],
      ((e.2).head?).map Mode.pol = some Pol.TE :=
  sweep_three_widths_te_slot_zero (fun _ : ℚ => [Mode.mk 2 0 Pol.TE [1]])
    (by decide) (by decide) (by decide)

end Modes
